import Mathlib

/-!
Verification of `ppopt/mp_solvers/mpmiqp_enumeration.py` (`solve_mpmiqp_enumeration`),
the enumeration solver for multiparametric mixed-integer programs.

The orchestration logic of the file is embedded shallowly. The external
collaborators (the `MITree` search structure, the continuous solver
`solve_mpqp`, the 1-D overlap reducer, the process pool, the CPU-core query)
are out of scope for the repository file under verification and are passed
in as parameters, constrained only where their documented interface contract
is needed.
-/

namespace PPOPT

/-- The mixed-integer multiparametric program, restricted to the attributes
`solve_mpmiqp_enumeration` reads: the objective matrix `H` (rows of
rationals), the index partition `binary_indices` / `cont_indices`, the
parameter-space dimension `num_t()`, and the optional quadratic matrix `Q`
(in the Python source its presence is tested with `hasattr(program, 'Q')`;
here `Q = some _` models the attribute being present). -/
structure MPMILP_Program where
  H : List (List ℚ)
  binary_indices : List ℕ
  cont_indices : List ℕ
  num_t : ℕ
  Q : Option (List (List ℚ))
  deriving Repr, DecidableEq

/-- A critical region, restricted to the fields the enumeration solver
touches: the three annotation fields it writes (`y_fixation`, `y_indices`,
`x_indices`) and an abstract `payload` holding everything else (the
polyhedron and the affine policy), which the solver never touches. -/
structure CriticalRegion (α : Type) where
  payload : α
  y_fixation : Option (List ℤ)
  y_indices : List ℕ
  x_indices : List ℕ
  deriving Repr, DecidableEq

/-- The aggregate `Solution` object as constructed at the end of
`solve_mpmiqp_enumeration`: the program, the region list, and the
overlap flag. -/
structure Solution (α : Type) where
  program : MPMILP_Program
  critical_regions : List (CriticalRegion α)
  is_overlapping : Bool
  deriving Repr, DecidableEq

/-- The external collaborators consumed by `solve_mpmiqp_enumeration`,
abstracted at their interface boundary.  `α` is the critical-region
payload, `β` the type of continuous sub-problems, `γ` the type of the
continuous algorithm choice, `ε` the type of exceptions. -/
structure Env (α β γ ε : Type) where
  /-- Models `num_cpu_cores()` from `utils.general_utils`. -/
  num_cpu_cores : ℤ
  /-- Models `MITree(program, depth=0)` followed by
  `[leaf_nodes.fixed_bins for leaf_nodes in tree.get_full_leafs()]`:
  construction of the search structure and extraction of the feasible
  fixed binary assignments.  An `Except.error` models an exception raised
  during construction. -/
  get_full_leafs : MPMILP_Program → Except ε (List (List ℤ))
  /-- Models `program.generate_substituted_problem(fixed_bins)`. -/
  generate_substituted_problem : MPMILP_Program → List ℤ → β
  /-- Models `solve_mpqp(x, cont_algorithm).critical_regions`: the continuous
  solve of one sub-problem; an `Except.error` models the solve raising. -/
  solve_mpqp : β → γ → Except ε (List (CriticalRegion α))
  /-- Models `reduce_overlapping_critical_regions_1d(program, regions)`: the
  external 1-D overlap reducer, returning the reduced region list and the
  `overlaps_remaining` flag. -/
  reduce_overlapping_critical_regions_1d :
    MPMILP_Program → List (CriticalRegion α) → List (CriticalRegion α) × Bool

/-- Lines 31-32 of the source: `if num_cores == -1: num_cores = num_cpu_cores()`.
The sentinel `-1` resolves to the platform-reported core count; any other
value is used as given. -/
def resolve_num_cores (num_cores num_cpu : ℤ) : ℤ :=
  if num_cores = -1 then num_cpu else num_cores

/-- Modelled from the spec: `Pool(num_cores).map`, the order-preserving
parallel map over a fixed-size worker pool (pathos `ProcessingPool`).
`result[i]` corresponds to `input[i]` regardless of completion order; the
worker count only sizes the pool and does not affect the value; a failing
worker aborts the whole dispatch with its exception (the first failure in
submission order). -/
def pool_map {β σ ε : Type} (num_cores : ℤ) (f : β → Except ε σ) :
    List β → Except ε (List σ)
  | [] => Except.ok []
  | x :: xs =>
    match f x with
    | Except.error e => Except.error e
    | Except.ok y =>
      match pool_map num_cores f xs with
      | Except.error e => Except.error e
      | Except.ok ys => Except.ok (y :: ys)

/-- Lines 52-54 of the source: the annotation applied to one critical
region — set `y_fixation` to the assignment that produced its parent
solution, `y_indices` to the program's binary index list, `x_indices` to
the program's continuous index list.  All other fields are untouched. -/
def annotate {α : Type} (program : MPMILP_Program) (fixed_bins : List ℤ)
    (cr : CriticalRegion α) : CriticalRegion α :=
  { cr with
    y_fixation := some fixed_bins
    y_indices := program.binary_indices
    x_indices := program.cont_indices }

/-- Lines 48-55 of the source: `region_list`, the per-sub-problem lists of
annotated critical regions, in sub-problem order (`enumerate(sols)` paired
with `feasible_combinations[index]`). -/
def region_list {α : Type} (program : MPMILP_Program)
    (feasible_combinations : List (List ℤ))
    (sols : List (List (CriticalRegion α))) : List (List (CriticalRegion α)) :=
  (List.zip feasible_combinations sols).map
    (fun pr => pr.2.map (annotate program pr.1))

/-- Line 59 of the source:
`numpy.sum(numpy.abs(program.H[program.cont_indices, :]))` — the sum of
absolute values of the rows of `H` selected by `cont_indices`. -/
def sum_abs_H (program : MPMILP_Program) : ℚ :=
  (program.cont_indices.map
    (fun i => ((program.H.getD i []).map (fun x => |x|)).sum)).sum

/-- Models `numpy.isclose(x, 0)` with numpy's default tolerances
(`atol = 1e-8`, and the relative term vanishes against the reference 0):
`|x| ≤ 1e-8`. -/
def isclose_zero (x : ℚ) : Bool :=
  decide (|x| ≤ 1 / 100000000)

/-- Line 60 of the source: `not numpy.isclose(sum_abs_H, 0)`. -/
def is_bilinear_terms (program : MPMILP_Program) : Bool :=
  ! isclose_zero (sum_abs_H program)

/-- Line 62 of the source: `hasattr(program, 'Q')` — the quadratic-term
signal is attribute presence, not the value of `Q`. -/
def has_quadratic_term (program : MPMILP_Program) : Bool :=
  program.Q.isSome

/-- Line 62 of the source: the full disqualification guard
`program.num_t() > 1 or hasattr(program, 'Q') or not reduce_overlap or is_bilinear_terms`. -/
def reduction_disqualified (program : MPMILP_Program) (reduce_overlap : Bool) : Bool :=
  decide (program.num_t > 1) || has_quadratic_term program || ! reduce_overlap
    || is_bilinear_terms program

/-- The shallow embedding of `solve_mpmiqp_enumeration` (lines 14-69 of
`ppopt/mp_solvers/mpmiqp_enumeration.py`), parametrized by the external
collaborators in `env`.  An `Except.error` is an exception propagating to
the caller. -/
def solve_mpmiqp_enumeration {α β γ ε : Type} (env : Env α β γ ε)
    (program : MPMILP_Program) (num_cores : ℤ) (cont_algorithm : γ)
    (reduce_overlap : Bool) : Except ε (Solution α) :=
  let cores := resolve_num_cores num_cores env.num_cpu_cores
  match env.get_full_leafs program with
  | Except.error e => Except.error e
  | Except.ok feasible_combinations =>
    let problems :=
      feasible_combinations.map (env.generate_substituted_problem program)
    match pool_map cores (fun x => env.solve_mpqp x cont_algorithm) problems with
    | Except.error e => Except.error e
    | Except.ok sols =>
      let collected_regions := (region_list program feasible_combinations sols).flatten
      if reduction_disqualified program reduce_overlap then
        Except.ok ⟨program, collected_regions, true⟩
      else
        let reduced :=
          env.reduce_overlapping_critical_regions_1d program collected_regions
        Except.ok ⟨program, reduced.1, reduced.2⟩

/-! ### Helper lemmas shared by the claims -/

/-- The worker count only sizes the pool; the order-preserving map's value
does not depend on it. -/
theorem pool_map_cores {β σ ε : Type} (n m : ℤ) (f : β → Except ε σ)
    (l : List β) : pool_map n f l = pool_map m f l := by
  induction l with
  | nil => rfl
  | cons x xs ih =>
    unfold pool_map
    rw [ih]

/-- A successful dispatch returns one result per sub-problem. -/
theorem pool_map_ok_length {β σ ε : Type} (n : ℤ) (f : β → Except ε σ)
    (l : List β) (r : List σ) (h : pool_map n f l = Except.ok r) :
    r.length = l.length := by
  induction l generalizing r with
  | nil =>
    unfold pool_map at h
    cases h
    rfl
  | cons x xs ih =>
    unfold pool_map at h
    cases hx : f x with
    | error e => rw [hx] at h; cases h
    | ok y =>
      rw [hx] at h
      cases hxs : pool_map n f xs with
      | error e => rw [hxs] at h; cases h
      | ok ys =>
        rw [hxs] at h
        cases h
        simp [ih ys hxs]

/-- In a successful dispatch, the i-th result is the solve of the i-th
sub-problem. -/
theorem pool_map_ok_get {β σ ε : Type} (n : ℤ) (f : β → Except ε σ)
    (l : List β) (r : List σ) (h : pool_map n f l = Except.ok r)
    (i : ℕ) (hi : i < l.length) (hi' : i < r.length) :
    f (l.get ⟨i, hi⟩) = Except.ok (r.get ⟨i, hi'⟩) := by
  induction l generalizing r i with
  | nil => exact absurd hi (Nat.not_lt_zero i)
  | cons x xs ih =>
    unfold pool_map at h
    cases hx : f x with
    | error e => rw [hx] at h; cases h
    | ok y =>
      rw [hx] at h
      cases hxs : pool_map n f xs with
      | error e => rw [hxs] at h; cases h
      | ok ys =>
        rw [hxs] at h
        cases h
        cases i with
        | zero => simpa using hx
        | succ j =>
          have hj : j < xs.length := Nat.lt_of_succ_lt_succ hi
          have hj' : j < ys.length := Nat.lt_of_succ_lt_succ hi'
          simpa using ih ys hxs j hj hj'

/-- If every sub-problem before index `k` solves successfully and the one at
`k` raises, the whole dispatch raises with that exception. -/
theorem pool_map_error_first {β σ ε : Type} (n : ℤ) (f : β → Except ε σ)
    (l : List β) (k : ℕ) (hk : k < l.length) (e : ε)
    (hbef : ∀ j (hj : j < k), ∃ y, f (l.get ⟨j, hj.trans hk⟩) = Except.ok y)
    (herr : f (l.get ⟨k, hk⟩) = Except.error e) :
    pool_map n f l = Except.error e := by
  induction l generalizing k with
  | nil => exact absurd hk (Nat.not_lt_zero k)
  | cons x xs ih =>
    cases k with
    | zero =>
      unfold pool_map
      rw [show f x = Except.error e from herr]
    | succ k =>
      obtain ⟨y, hy⟩ := hbef 0 (Nat.succ_pos k)
      have hrec := ih k (Nat.lt_of_succ_lt_succ hk)
        (fun j hj => hbef (j + 1) (Nat.succ_lt_succ hj)) herr
      unfold pool_map
      rw [show f x = Except.ok y from hy, hrec]

/-- Characterization of a non-raising run: once the leaves are extracted and
all sub-problems solve, the result is decided by the disqualification guard. -/
theorem solve_mpmiqp_enumeration_eq {α β γ ε : Type} (env : Env α β γ ε)
    (program : MPMILP_Program) (num_cores : ℤ) (cont_algorithm : γ)
    (reduce_overlap : Bool) (feasible_combinations : List (List ℤ))
    (sols : List (List (CriticalRegion α)))
    (hleafs : env.get_full_leafs program = Except.ok feasible_combinations)
    (hsols : pool_map (resolve_num_cores num_cores env.num_cpu_cores)
        (fun x => env.solve_mpqp x cont_algorithm)
        (feasible_combinations.map (env.generate_substituted_problem program))
      = Except.ok sols) :
    solve_mpmiqp_enumeration env program num_cores cont_algorithm reduce_overlap
      = (if reduction_disqualified program reduce_overlap then
          Except.ok ⟨program,
            (region_list program feasible_combinations sols).flatten, true⟩
        else
          Except.ok ⟨program,
            (env.reduce_overlapping_critical_regions_1d program
              (region_list program feasible_combinations sols).flatten).1,
            (env.reduce_overlapping_critical_regions_1d program
              (region_list program feasible_combinations sols).flatten).2⟩) := by
  simp only [solve_mpmiqp_enumeration, hleafs, hsols]

/-! ### Claim theorems -/

/-- C7: the worker-count sentinel `-1` resolves, before dispatch, to the
platform-reported available-core count; any other caller-supplied value is
used as given. -/
theorem resolve_num_cores_spec (num_cpu : ℤ) :
    resolve_num_cores (-1) num_cpu = num_cpu ∧
      ∀ n : ℤ, n ≠ -1 → resolve_num_cores n num_cpu = n := by
  refine ⟨rfl, fun n hn => ?_⟩
  unfold resolve_num_cores
  rw [if_neg hn]

/-- Witness for C7 at `num_cpu = 8`, `n = 4`. -/
theorem resolve_num_cores_spec_witness :
    resolve_num_cores (-1) 8 = 8 ∧ resolve_num_cores 4 8 = 4 :=
  ⟨(resolve_num_cores_spec 8).1, (resolve_num_cores_spec 8).2 4 (by decide)⟩

/-- C8: two runs of `solve_mpmiqp_enumeration` differing only in the worker
count produce identical Solutions (same region list, order, annotations and
overlap flag): the pool size never influences the value. -/
theorem solve_enumeration_cores_deterministic {α β γ ε : Type}
    (env : Env α β γ ε) (program : MPMILP_Program) (n₁ n₂ : ℤ)
    (cont_algorithm : γ) (reduce_overlap : Bool) :
    solve_mpmiqp_enumeration env program n₁ cont_algorithm reduce_overlap
      = solve_mpmiqp_enumeration env program n₂ cont_algorithm reduce_overlap := by
  cases hl : env.get_full_leafs program with
  | error e => simp [solve_mpmiqp_enumeration, hl]
  | ok combos =>
    simp only [solve_mpmiqp_enumeration, hl]
    rw [pool_map_cores (resolve_num_cores n₁ env.num_cpu_cores)
      (resolve_num_cores n₂ env.num_cpu_cores)]

/-- C1: whenever any of the four structural signals disqualifies reduction
(parameter dimension above 1, a quadratic `Q` attribute, reduction disabled
by the caller, or a continuous-row Hessian block not numerically close to
zero), the returned Solution has `is_overlapping = true` and its region list
is the flattened annotated list, the 1-D reducer never being invoked. -/
theorem solve_enumeration_disqualified {α β γ ε : Type} (env : Env α β γ ε)
    (program : MPMILP_Program) (num_cores : ℤ) (cont_algorithm : γ)
    (reduce_overlap : Bool) (feasible_combinations : List (List ℤ))
    (sols : List (List (CriticalRegion α)))
    (hleafs : env.get_full_leafs program = Except.ok feasible_combinations)
    (hsols : pool_map (resolve_num_cores num_cores env.num_cpu_cores)
        (fun x => env.solve_mpqp x cont_algorithm)
        (feasible_combinations.map (env.generate_substituted_problem program))
      = Except.ok sols)
    (hdisq : 1 < program.num_t ∨ program.Q.isSome = true
      ∨ reduce_overlap = false ∨ is_bilinear_terms program = true) :
    solve_mpmiqp_enumeration env program num_cores cont_algorithm reduce_overlap
      = Except.ok ⟨program,
          (region_list program feasible_combinations sols).flatten, true⟩ := by
  have hg : reduction_disqualified program reduce_overlap = true := by
    unfold reduction_disqualified has_quadratic_term
    rcases hdisq with h | h | h | h <;> simp [h]
  rw [solve_mpmiqp_enumeration_eq env program num_cores cont_algorithm
    reduce_overlap feasible_combinations sols hleafs hsols, if_pos hg]

/-! ### Concrete instances used by the witnesses -/

/-- A concrete collaborator environment: two feasible assignments `[0]` and
`[1]`, each sub-problem solving to one critical region, and an identity
reducer reporting no remaining overlap. -/
def witEnv : Env Unit Unit Unit Unit where
  num_cpu_cores := 4
  get_full_leafs := fun _ => Except.ok [[0], [1]]
  generate_substituted_problem := fun _ _ => ()
  solve_mpqp := fun _ _ => Except.ok [⟨(), none, [], []⟩]
  reduce_overlapping_critical_regions_1d := fun _ l => (l, false)

/-- A two-parameter program (reduction disqualified by dimension alone). -/
def witProgDim2 : MPMILP_Program where
  H := [[0], [0]]
  binary_indices := [0]
  cont_indices := [1]
  num_t := 2
  Q := none

/-- A 1-D purely linear program: no `Q`, all-zero `H`. -/
def witProg1d : MPMILP_Program where
  H := [[0], [0]]
  binary_indices := [0]
  cont_indices := [1]
  num_t := 1
  Q := none

/-- The 1-D program of `witProg1d` carrying an entirely zero `Q` attribute. -/
def witProgQ0 : MPMILP_Program where
  H := [[0], [0]]
  binary_indices := [0]
  cont_indices := [1]
  num_t := 1
  Q := some [[0, 0], [0, 0]]

/-- Witness for C1: dimension 2 disqualifies reduction on a concrete run. -/
theorem solve_enumeration_disqualified_witness :
    solve_mpmiqp_enumeration witEnv witProgDim2 1 () true
      = Except.ok ⟨witProgDim2,
          (region_list witProgDim2 [[0], [1]]
            [[⟨(), none, [], []⟩], [⟨(), none, [], []⟩]]).flatten, true⟩ :=
  solve_enumeration_disqualified witEnv witProgDim2 1 () true [[0], [1]]
    [[⟨(), none, [], []⟩], [⟨(), none, [], []⟩]] rfl rfl (Or.inl (by decide))

/-- C2: for a 1-D program with no quadratic attribute, all-zero
continuous-row block of `H` and reduction enabled, the flattened annotated
region list is handed to the 1-D reducer, whose returned list and
`overlaps_remaining` flag are passed through to the Solution. -/
theorem solve_enumeration_reduction_passthrough {α β γ ε : Type}
    (env : Env α β γ ε) (program : MPMILP_Program) (num_cores : ℤ)
    (cont_algorithm : γ) (feasible_combinations : List (List ℤ))
    (sols : List (List (CriticalRegion α)))
    (h1 : program.num_t = 1) (hQ : program.Q = none)
    (hH : ∀ i ∈ program.cont_indices, ∀ x ∈ program.H.getD i [], x = 0)
    (hleafs : env.get_full_leafs program = Except.ok feasible_combinations)
    (hsols : pool_map (resolve_num_cores num_cores env.num_cpu_cores)
        (fun x => env.solve_mpqp x cont_algorithm)
        (feasible_combinations.map (env.generate_substituted_problem program))
      = Except.ok sols) :
    solve_mpmiqp_enumeration env program num_cores cont_algorithm true
      = Except.ok ⟨program,
          (env.reduce_overlapping_critical_regions_1d program
            (region_list program feasible_combinations sols).flatten).1,
          (env.reduce_overlapping_critical_regions_1d program
            (region_list program feasible_combinations sols).flatten).2⟩ := by
  have hsum : sum_abs_H program = 0 := by
    unfold sum_abs_H
    apply List.sum_eq_zero
    intro x hx
    rw [List.mem_map] at hx
    obtain ⟨i, hi, rfl⟩ := hx
    apply List.sum_eq_zero
    intro y hy
    rw [List.mem_map] at hy
    obtain ⟨z, hz, rfl⟩ := hy
    rw [hH i hi z hz, abs_zero]
  have hg : reduction_disqualified program true = false := by
    unfold reduction_disqualified has_quadratic_term is_bilinear_terms isclose_zero
    rw [h1, hQ, hsum]
    norm_num
  rw [solve_mpmiqp_enumeration_eq env program num_cores cont_algorithm true
    feasible_combinations sols hleafs hsols, if_neg (by rw [hg]; exact Bool.false_ne_true)]

/-- Witness for C2 on a concrete 1-D linear run. -/
theorem solve_enumeration_reduction_passthrough_witness :
    solve_mpmiqp_enumeration witEnv witProg1d 1 () true
      = Except.ok ⟨witProg1d,
          (witEnv.reduce_overlapping_critical_regions_1d witProg1d
            (region_list witProg1d [[0], [1]]
              [[⟨(), none, [], []⟩], [⟨(), none, [], []⟩]]).flatten).1,
          (witEnv.reduce_overlapping_critical_regions_1d witProg1d
            (region_list witProg1d [[0], [1]]
              [[⟨(), none, [], []⟩], [⟨(), none, [], []⟩]]).flatten).2⟩ :=
  solve_enumeration_reduction_passthrough witEnv witProg1d 1 () [[0], [1]]
    [[⟨(), none, [], []⟩], [⟨(), none, [], []⟩]] rfl rfl (by decide) rfl rfl

/-- C6: the quadratic-term signal is exactly attribute presence
(`hasattr(program, 'Q')`): an all-zero `Q` still disqualifies reduction and
forces `is_overlapping = true`, while a program without the attribute has
signal `false` whatever the objective curvature. -/
theorem quadratic_signal_is_attribute_presence {α β γ ε : Type}
    (env : Env α β γ ε) (program : MPMILP_Program) (num_cores : ℤ)
    (cont_algorithm : γ) (reduce_overlap : Bool)
    (feasible_combinations : List (List ℤ))
    (sols : List (List (CriticalRegion α)))
    (hleafs : env.get_full_leafs program = Except.ok feasible_combinations)
    (hsols : pool_map (resolve_num_cores num_cores env.num_cpu_cores)
        (fun x => env.solve_mpqp x cont_algorithm)
        (feasible_combinations.map (env.generate_substituted_problem program))
      = Except.ok sols) :
    (∀ q : MPMILP_Program, has_quadratic_term q = q.Q.isSome) ∧
      ∀ Qv, program.Q = some Qv →
        solve_mpmiqp_enumeration env program num_cores cont_algorithm reduce_overlap
          = Except.ok ⟨program,
              (region_list program feasible_combinations sols).flatten, true⟩ := by
  refine ⟨fun q => rfl, fun Qv hQ => ?_⟩
  have hg : reduction_disqualified program reduce_overlap = true := by
    unfold reduction_disqualified has_quadratic_term
    rw [hQ]
    simp
  rw [solve_mpmiqp_enumeration_eq env program num_cores cont_algorithm
    reduce_overlap feasible_combinations sols hleafs hsols, if_pos hg]

/-- Witness for C6: an entirely zero `Q` attribute alone (1-D, zero `H`,
reduction enabled) forces the unreduced overlapping result. -/
theorem quadratic_signal_is_attribute_presence_witness :
    solve_mpmiqp_enumeration witEnv witProgQ0 1 () true
      = Except.ok ⟨witProgQ0,
          (region_list witProgQ0 [[0], [1]]
            [[⟨(), none, [], []⟩], [⟨(), none, [], []⟩]]).flatten, true⟩ :=
  (quadratic_signal_is_attribute_presence witEnv witProgQ0 1 () true [[0], [1]]
    [[⟨(), none, [], []⟩], [⟨(), none, [], []⟩]] rfl rfl).2 [[0, 0], [0, 0]] rfl

/-- An environment whose search-structure construction raises (error code 0). -/
def witEnvFailTree : Env Unit Unit Unit ℕ where
  num_cpu_cores := 4
  get_full_leafs := fun _ => Except.error 0
  generate_substituted_problem := fun _ _ => ()
  solve_mpqp := fun _ _ => Except.ok []
  reduce_overlapping_critical_regions_1d := fun _ l => (l, false)

/-- An environment whose continuous solver raises (error code 1) on every
sub-problem. -/
def witEnvFailSolve : Env Unit Unit Unit ℕ where
  num_cpu_cores := 4
  get_full_leafs := fun _ => Except.ok [[0], [1]]
  generate_substituted_problem := fun _ _ => ()
  solve_mpqp := fun _ _ => Except.error 1
  reduce_overlapping_critical_regions_1d := fun _ l => (l, false)

/-- An environment with zero feasible binary combinations. -/
def witEnvEmpty : Env Unit Unit Unit Unit where
  num_cpu_cores := 4
  get_full_leafs := fun _ => Except.ok []
  generate_substituted_problem := fun _ _ => ()
  solve_mpqp := fun _ _ => Except.ok []
  reduce_overlapping_critical_regions_1d := fun _ l => (l, false)

/-- C9: a failure of the search-structure construction, or of the continuous
solve of any single sub-problem (every earlier one succeeding), propagates
out of `solve_mpmiqp_enumeration` unchanged, with no partial Solution. -/
theorem solve_enumeration_error_propagation {α β γ ε : Type}
    (env : Env α β γ ε) (program : MPMILP_Program) (num_cores : ℤ)
    (cont_algorithm : γ) (reduce_overlap : Bool) (e : ε) :
    (env.get_full_leafs program = Except.error e →
      solve_mpmiqp_enumeration env program num_cores cont_algorithm reduce_overlap
        = Except.error e) ∧
    ∀ feasible_combinations,
      env.get_full_leafs program = Except.ok feasible_combinations →
      ∀ k (hk : k < feasible_combinations.length),
        (∀ j (hj : j < k), ∃ rs,
          env.solve_mpqp
              (env.generate_substituted_problem program
                (feasible_combinations.get ⟨j, hj.trans hk⟩)) cont_algorithm
            = Except.ok rs) →
        env.solve_mpqp
            (env.generate_substituted_problem program
              (feasible_combinations.get ⟨k, hk⟩)) cont_algorithm
          = Except.error e →
        solve_mpmiqp_enumeration env program num_cores cont_algorithm reduce_overlap
          = Except.error e := by
  constructor
  · intro hl
    simp [solve_mpmiqp_enumeration, hl]
  · intro combos hl k hk hbef herr
    have hk' : k < (combos.map (env.generate_substituted_problem program)).length := by
      simpa using hk
    have hpool : pool_map (resolve_num_cores num_cores env.num_cpu_cores)
        (fun x => env.solve_mpqp x cont_algorithm)
        (combos.map (env.generate_substituted_problem program))
        = Except.error e := by
      apply pool_map_error_first _ _ _ k hk' e
      · intro j hj
        obtain ⟨rs, hrs⟩ := hbef j hj
        refine ⟨rs, ?_⟩
        simpa [List.get_eq_getElem, List.getElem_map] using hrs
      · simpa [List.get_eq_getElem, List.getElem_map] using herr
    simp [solve_mpmiqp_enumeration, hl, hpool]

/-- Witness for C9: a raising construction (left conjunct) and a raising
first sub-problem solve (right conjunct applied at `k = 0`). -/
theorem solve_enumeration_error_propagation_witness :
    solve_mpmiqp_enumeration witEnvFailTree witProg1d 1 () true = Except.error 0 ∧
      solve_mpmiqp_enumeration witEnvFailSolve witProg1d 1 () true = Except.error 1 :=
  ⟨(solve_enumeration_error_propagation witEnvFailTree witProg1d 1 () true 0).1 rfl,
   (solve_enumeration_error_propagation witEnvFailSolve witProg1d 1 () true 1).2
     [[0], [1]] rfl 0 (by decide) (fun j hj => absurd hj (Nat.not_lt_zero j)) rfl⟩

/-- C4 counterexample: a program with zero feasible binary combinations but
parameter dimension 2 returns an empty region list with
`is_overlapping = true`, refuting the claimed `is_overlapping = false`. -/
theorem solve_enumeration_empty_cex :
    witEnvEmpty.get_full_leafs witProgDim2 = Except.ok [] ∧
      solve_mpmiqp_enumeration witEnvEmpty witProgDim2 1 () true
        = Except.ok ⟨witProgDim2, [], true⟩ := by
  refine ⟨rfl, ?_⟩
  have h := solve_mpmiqp_enumeration_eq witEnvEmpty witProgDim2 1 () true [] [] rfl rfl
  rw [h, if_pos (by decide)]
  rfl

/-- C4 amended: with zero feasible combinations and a successful
construction, no exception is raised; the region list is empty and
`is_overlapping = true` when any disqualifying signal holds, and otherwise
the Solution is the 1-D reducer's output on the empty region list. -/
theorem solve_enumeration_empty_regions {α β γ ε : Type}
    (env : Env α β γ ε) (program : MPMILP_Program) (num_cores : ℤ)
    (cont_algorithm : γ) (reduce_overlap : Bool)
    (hleafs : env.get_full_leafs program = Except.ok []) :
    solve_mpmiqp_enumeration env program num_cores cont_algorithm reduce_overlap
      = (if reduction_disqualified program reduce_overlap then
          Except.ok ⟨program, [], true⟩
        else
          Except.ok ⟨program,
            (env.reduce_overlapping_critical_regions_1d program []).1,
            (env.reduce_overlapping_critical_regions_1d program []).2⟩) := by
  have h := solve_mpmiqp_enumeration_eq env program num_cores cont_algorithm
    reduce_overlap [] [] hleafs rfl
  simpa [region_list] using h

/-- Witness for C4's amended statement on a concrete zero-combination run. -/
theorem solve_enumeration_empty_regions_witness :
    solve_mpmiqp_enumeration witEnvEmpty witProg1d 1 () true
      = (if reduction_disqualified witProg1d true then
          Except.ok ⟨witProg1d, [], true⟩
        else
          Except.ok ⟨witProg1d,
            (witEnvEmpty.reduce_overlapping_critical_regions_1d witProg1d []).1,
            (witEnvEmpty.reduce_overlapping_critical_regions_1d witProg1d []).2⟩) :=
  solve_enumeration_empty_regions witEnvEmpty witProg1d 1 () true rfl

/-- C3: in a successful run the i-th dispatched result is the solve of the
sub-problem generated from the i-th feasible assignment, and the i-th
per-sub-problem region list is the i-th solve's regions annotated with the
i-th assignment and the program's index partition; the collected sequence is
their flattening, sub-problem-major, region-minor. -/
theorem solve_enumeration_annotation_order {α β γ ε : Type}
    (env : Env α β γ ε) (program : MPMILP_Program) (num_cores : ℤ)
    (cont_algorithm : γ) (feasible_combinations : List (List ℤ))
    (sols : List (List (CriticalRegion α)))
    (hleafs : env.get_full_leafs program = Except.ok feasible_combinations)
    (hsols : pool_map (resolve_num_cores num_cores env.num_cpu_cores)
        (fun x => env.solve_mpqp x cont_algorithm)
        (feasible_combinations.map (env.generate_substituted_problem program))
      = Except.ok sols) :
    sols.length = feasible_combinations.length ∧
    (region_list program feasible_combinations sols).length
      = feasible_combinations.length ∧
    (∀ i (hc : i < feasible_combinations.length) (hs : i < sols.length),
      env.solve_mpqp
          (env.generate_substituted_problem program
            (feasible_combinations.get ⟨i, hc⟩)) cont_algorithm
        = Except.ok (sols.get ⟨i, hs⟩)) ∧
    ∀ i (hc : i < feasible_combinations.length) (hs : i < sols.length)
        (hr : i < (region_list program feasible_combinations sols).length),
      (region_list program feasible_combinations sols).get ⟨i, hr⟩
        = (sols.get ⟨i, hs⟩).map
            (annotate program (feasible_combinations.get ⟨i, hc⟩)) ∧
      ∀ cr ∈ (region_list program feasible_combinations sols).get ⟨i, hr⟩,
        cr.y_fixation = some (feasible_combinations.get ⟨i, hc⟩) ∧
        cr.y_indices = program.binary_indices ∧
        cr.x_indices = program.cont_indices := by
  have hlen : sols.length = feasible_combinations.length := by
    simpa using pool_map_ok_length _ _ _ _ hsols
  have hrl : (region_list program feasible_combinations sols).length
      = feasible_combinations.length := by
    simp [region_list, List.length_zip, hlen]
  refine ⟨hlen, hrl, ?_, ?_⟩
  · intro i hc hs
    have hi : i < (feasible_combinations.map
        (env.generate_substituted_problem program)).length := by simpa using hc
    simpa [List.get_eq_getElem, List.getElem_map] using
      pool_map_ok_get _ _ _ _ hsols i hi hs
  · intro i hc hs hr
    have hget : (region_list program feasible_combinations sols).get ⟨i, hr⟩
        = (sols.get ⟨i, hs⟩).map
            (annotate program (feasible_combinations.get ⟨i, hc⟩)) := by
      simp [region_list, List.get_eq_getElem, List.getElem_map, List.getElem_zip]
    refine ⟨hget, ?_⟩
    intro cr hcr
    rw [hget, List.mem_map] at hcr
    obtain ⟨cr0, _, rfl⟩ := hcr
    exact ⟨rfl, rfl, rfl⟩

/-- Witness for C3: the concrete two-assignment run, with the index-0
correspondence made explicit. -/
theorem solve_enumeration_annotation_order_witness :
    ([[⟨(), none, [], []⟩], [⟨(), none, [], []⟩]] :
        List (List (CriticalRegion Unit))).length = [([0] : List ℤ), [1]].length ∧
      witEnv.solve_mpqp
          (witEnv.generate_substituted_problem witProg1d
            (([([0] : List ℤ), [1]]).get ⟨0, by decide⟩)) ()
        = Except.ok
            (([[⟨(), none, [], []⟩], [⟨(), none, [], []⟩]] :
              List (List (CriticalRegion Unit))).get ⟨0, by decide⟩) :=
  ⟨(solve_enumeration_annotation_order witEnv witProg1d 1 () [[0], [1]]
      [[⟨(), none, [], []⟩], [⟨(), none, [], []⟩]] rfl rfl).1,
   (solve_enumeration_annotation_order witEnv witProg1d 1 () [[0], [1]]
      [[⟨(), none, [], []⟩], [⟨(), none, [], []⟩]] rfl rfl).2.2.1 0
      (by decide) (by decide)⟩

/-- Two index lists partition the variable index set `{0, ..., num_vars - 1}`
with empty intersection. -/
def partitions_variable_set (ys xs : List ℕ) (num_vars : ℕ) : Prop :=
  (∀ v, (v ∈ ys ∨ v ∈ xs) ↔ v < num_vars) ∧ ∀ v, ¬(v ∈ ys ∧ v ∈ xs)

/-- C5: assuming the search structure yields assignments of binary length,
the program's index lists partition the variable set, and the reducer only
returns regions drawn from its input (its documented deduplication
contract), every critical region of the returned Solution carries a
non-null `y_fixation` of binary length and index lists that partition the
variable set with no overlap. -/
theorem solve_enumeration_region_invariant {α β γ ε : Type}
    (env : Env α β γ ε) (program : MPMILP_Program) (num_cores : ℤ)
    (cont_algorithm : γ) (reduce_overlap : Bool) (num_vars : ℕ)
    (feasible_combinations : List (List ℤ))
    (sols : List (List (CriticalRegion α))) (s : Solution α)
    (hleafs : env.get_full_leafs program = Except.ok feasible_combinations)
    (hsols : pool_map (resolve_num_cores num_cores env.num_cpu_cores)
        (fun x => env.solve_mpqp x cont_algorithm)
        (feasible_combinations.map (env.generate_substituted_problem program))
      = Except.ok sols)
    (hbinlen : ∀ fb ∈ feasible_combinations,
      fb.length = program.binary_indices.length)
    (hpart : partitions_variable_set program.binary_indices
      program.cont_indices num_vars)
    (hreduce : ∀ l, ∀ cr ∈
      (env.reduce_overlapping_critical_regions_1d program l).1, cr ∈ l)
    (hrun : solve_mpmiqp_enumeration env program num_cores cont_algorithm
      reduce_overlap = Except.ok s) :
    ∀ cr ∈ s.critical_regions,
      (∃ fb, cr.y_fixation = some fb
        ∧ fb.length = program.binary_indices.length) ∧
      cr.y_indices = program.binary_indices ∧
      cr.x_indices = program.cont_indices ∧
      partitions_variable_set cr.y_indices cr.x_indices num_vars := by
  have key : ∀ cr ∈ (region_list program feasible_combinations sols).flatten,
      (∃ fb, cr.y_fixation = some fb
        ∧ fb.length = program.binary_indices.length) ∧
      cr.y_indices = program.binary_indices ∧
      cr.x_indices = program.cont_indices ∧
      partitions_variable_set cr.y_indices cr.x_indices num_vars := by
    intro cr hcr
    rw [List.mem_flatten] at hcr
    obtain ⟨l, hl, hcrl⟩ := hcr
    rw [region_list, List.mem_map] at hl
    obtain ⟨pr, hpr, rfl⟩ := hl
    rw [List.mem_map] at hcrl
    obtain ⟨cr0, _, rfl⟩ := hcrl
    exact ⟨⟨pr.1, rfl, hbinlen pr.1 (List.of_mem_zip hpr).1⟩, rfl, rfl, hpart⟩
  rw [solve_mpmiqp_enumeration_eq env program num_cores cont_algorithm
    reduce_overlap feasible_combinations sols hleafs hsols] at hrun
  by_cases hg : reduction_disqualified program reduce_overlap = true
  · rw [if_pos hg] at hrun
    injection hrun with h
    subst h
    intro cr hcr
    exact key cr hcr
  · rw [if_neg hg] at hrun
    injection hrun with h
    subst h
    intro cr hcr
    exact key cr (hreduce _ cr hcr)

/-- Witness for C5 at the two-assignment, two-parameter run. -/
theorem solve_enumeration_region_invariant_witness :
    (∃ fb, (⟨(), some [0], [0], [1]⟩ : CriticalRegion Unit).y_fixation = some fb
      ∧ fb.length = witProgDim2.binary_indices.length) ∧
    (⟨(), some [0], [0], [1]⟩ : CriticalRegion Unit).y_indices
      = witProgDim2.binary_indices ∧
    (⟨(), some [0], [0], [1]⟩ : CriticalRegion Unit).x_indices
      = witProgDim2.cont_indices ∧
    partitions_variable_set [0] [1] 2 :=
  solve_enumeration_region_invariant witEnv witProgDim2 1 () true 2 [[0], [1]]
    [[⟨(), none, [], []⟩], [⟨(), none, [], []⟩]]
    ⟨witProgDim2, [⟨(), some [0], [0], [1]⟩, ⟨(), some [1], [0], [1]⟩], true⟩
    rfl rfl (by decide)
    ⟨fun v => by simp [witProgDim2]; omega, fun v => by simp [witProgDim2]; omega⟩
    (fun l cr h => h)
    (by rw [solve_mpmiqp_enumeration_eq witEnv witProgDim2 1 () true [[0], [1]]
        [[⟨(), none, [], []⟩], [⟨(), none, [], []⟩]] rfl rfl,
        if_pos (by decide)]; rfl)
    ⟨(), some [0], [0], [1]⟩ (by simp)

/-- C10: the input program is never mutated — any returned Solution carries
it unchanged in every field — and the only mutation of a critical region is
the annotation step, which sets exactly the three fields `y_fixation`,
`y_indices`, `x_indices` and preserves the payload. -/
theorem solve_enumeration_program_not_mutated {α β γ ε : Type}
    (env : Env α β γ ε) (program : MPMILP_Program) (num_cores : ℤ)
    (cont_algorithm : γ) (reduce_overlap : Bool) :
    (∀ s : Solution α,
      solve_mpmiqp_enumeration env program num_cores cont_algorithm
          reduce_overlap = Except.ok s →
      s.program = program ∧ s.program.H = program.H ∧
        s.program.binary_indices = program.binary_indices ∧
        s.program.cont_indices = program.cont_indices ∧
        s.program.num_t = program.num_t ∧ s.program.Q = program.Q) ∧
    ∀ (fixed_bins : List ℤ) (cr : CriticalRegion α),
      annotate program fixed_bins cr
        = ⟨cr.payload, some fixed_bins,
            program.binary_indices, program.cont_indices⟩ := by
  refine ⟨?_, fun fixed_bins cr => rfl⟩
  intro s hs
  cases hl : env.get_full_leafs program with
  | error e =>
    simp only [solve_mpmiqp_enumeration, hl] at hs
    exact (Except.noConfusion hs)
  | ok combos =>
    simp only [solve_mpmiqp_enumeration, hl] at hs
    cases hp : pool_map (resolve_num_cores num_cores env.num_cpu_cores)
        (fun x => env.solve_mpqp x cont_algorithm)
        (combos.map (env.generate_substituted_problem program)) with
    | error e =>
      simp only [hp] at hs
      exact (Except.noConfusion hs)
    | ok sols =>
      simp only [hp] at hs
      split at hs <;>
      · injection hs with h
        subst h
        exact ⟨rfl, rfl, rfl, rfl, rfl, rfl⟩

/-- Witness for C10: the concrete two-parameter run returns the program
unchanged, and a concrete annotation sets exactly the three fields. -/
theorem solve_enumeration_program_not_mutated_witness :
    (⟨witProgDim2, [⟨(), some [0], [0], [1]⟩, ⟨(), some [1], [0], [1]⟩], true⟩
        : Solution Unit).program = witProgDim2 ∧
      annotate witProgDim2 [0] (⟨(), none, [], []⟩ : CriticalRegion Unit)
        = ⟨(), some [0], witProgDim2.binary_indices, witProgDim2.cont_indices⟩ :=
  ⟨((solve_enumeration_program_not_mutated witEnv witProgDim2 1 () true).1
      ⟨witProgDim2, [⟨(), some [0], [0], [1]⟩, ⟨(), some [1], [0], [1]⟩], true⟩
      (by rw [solve_mpmiqp_enumeration_eq witEnv witProgDim2 1 () true [[0], [1]]
          [[⟨(), none, [], []⟩], [⟨(), none, [], []⟩]] rfl rfl,
          if_pos (by decide)]; rfl)).1,
   (solve_enumeration_program_not_mutated witEnv witProgDim2 1 () true).2
     [0] ⟨(), none, [], []⟩⟩

end PPOPT
